import Mathlib

/-!
Verification of the rigid-pose algebra and cascaded-frame engine of
`skrobot/coordinates/base.py` (scikit-robot fork).

Shallow embedding: matrices and vectors over `ℚ` (the Python code computes with
floats; every claim under scrutiny is exact real/rational arithmetic, so the
embedding uses exact scalars).  Pure functions of the source become Lean
functions; the mutable `CascadedCoords` tree (parent links, descendant
registries, dirty flags, cached world poses) becomes an explicit state type
`CCState` with fuel-bounded recursion mirroring the recursive Python methods
`changed`/`update`.
-/

abbrev Mat3 := Matrix (Fin 3) (Fin 3) ℚ
abbrev Vec3 := Fin 3 → ℚ

/-- Embedding of the `Coordinates` value content: `_rotation`, `_translation`
and `name` (from `Coordinates.__init__`).  The `parent`/hook machinery of the
cascaded subtype lives in `Node` below. -/
structure Coordinates where
  rotation : Mat3
  translation : Vec3
  name : String
deriving DecidableEq

/-- Model of `transform_coords(c1, c2)` with a fresh output object
(`out = Coordinates(check_validity=False)`, name defaulting to the empty string):
`out._translation = c1._translation + c1._rotation · c2._translation`,
`out._rotation = c1._rotation · c2._rotation`. -/
def transform_coords (c1 c2 : Coordinates) : Coordinates :=
  { rotation := c1.rotation * c2.rotation
    translation := c1.translation + c1.rotation.mulVec c2.translation
    name := "" }

/-- Model of `transform_coords(c1, c2, out)` with an explicit output object: the result
is written into the `_translation`/`_rotation` fields of `out` and `out` is
returned (its other state, e.g. `name`, is untouched). -/
def transform_coords_out (c1 c2 out : Coordinates) : Coordinates :=
  { out with
    rotation := c1.rotation * c2.rotation
    translation := c1.translation + c1.rotation.mulVec c2.translation }

/-- Model of `Coordinates.inverse_transformation` (fresh `dest`):
`dest._rotation = Rᵀ`, `dest._translation = -(Rᵀ · t)`. -/
def inverse_transformation (c : Coordinates) : Coordinates :=
  { rotation := c.rotation.transpose
    translation := -(c.rotation.transpose.mulVec c.translation)
    name := "" }

/-- The `Transform` value class: `translation` and `rotation`. -/
structure Transform where
  translation : Vec3
  rotation : Mat3
deriving DecidableEq

/-- Model of `Transform.__mul__`: with `tf_12 = self` and the other operand `tf_23`,
`rot_13 = rot_23 · rot_12` and `tran_13 = tran_23 + rot_23 · tran_12`. -/
def Transform.mul (tf_12 tf_23 : Transform) : Transform :=
  { translation := tf_23.translation + tf_23.rotation.mulVec tf_12.translation
    rotation := tf_23.rotation * tf_12.rotation }

instance : Mul Transform := ⟨Transform.mul⟩

/-- View a `Transform` as a `Coordinates` pose (rotation/translation pair). -/
def Transform.toCoords (t : Transform) : Coordinates :=
  { rotation := t.rotation, translation := t.translation, name := "" }

/-- C1: `compose(A, B)` (`transform_coords`) returns `C` with
`C.translation = A.translation + A.rotation · B.translation` and
`C.rotation = A.rotation · B.rotation`; when an output object is supplied the
result is written into that object (which keeps its identity/other fields) and
returned. -/
theorem claim_C1_transform_coords (A B out : Coordinates) :
    (transform_coords A B).translation
        = A.translation + A.rotation.mulVec B.translation
      ∧ (transform_coords A B).rotation = A.rotation * B.rotation
      ∧ transform_coords_out A B out
          = { out with rotation := A.rotation * B.rotation,
                       translation := A.translation + A.rotation.mulVec B.translation }
      ∧ (transform_coords_out A B out).name = out.name := by
  refine ⟨rfl, rfl, rfl, rfl⟩

/-- C7: the chaining operator `t12 * t23` composes its operands in the reverse
order from `transform_coords`: `(t12 * t23).rotation = t23.rotation · t12.rotation`,
`(t12 * t23).translation = t23.translation + t23.rotation · t12.translation`,
i.e. `t12 * t23` equals `compose(t23, t12)`. -/
theorem claim_C7_mul_reversed (t12 t23 : Transform) :
    (t12 * t23).rotation = t23.rotation * t12.rotation
      ∧ (t12 * t23).translation
          = t23.translation + t23.rotation.mulVec t12.translation
      ∧ (t12 * t23).toCoords = transform_coords t23.toCoords t12.toCoords := by
  refine ⟨rfl, rfl, rfl⟩

/-- C8: for an orthonormal rotation, composing a transform with its inverse on
either side yields the identity transform (identity rotation, zero
translation).  The Python code checks this within 1e-9; over exact scalars the
equality is exact. -/
theorem claim_C8_inverse_identity (T : Coordinates)
    (h : T.rotation * T.rotation.transpose = 1) :
    transform_coords T (inverse_transformation T)
        = { rotation := 1, translation := 0, name := "" }
      ∧ transform_coords (inverse_transformation T) T
        = { rotation := 1, translation := 0, name := "" } := by
  have h' : T.rotation.transpose * T.rotation = 1 :=
    Matrix.mul_eq_one_comm.mp h
  constructor
  · unfold transform_coords inverse_transformation
    simp only [Coordinates.mk.injEq]
    exact ⟨h, by simp [Matrix.mulVec_neg, Matrix.mulVec_mulVec, h], trivial⟩
  · unfold transform_coords inverse_transformation
    simp only [Coordinates.mk.injEq]
    exact ⟨h', by simp, trivial⟩

/-- Witness for C8 at a concrete orthonormal rotation (90° about z) and
translation (1,2,3). -/
theorem claim_C8_witness :
    ((!![0,-1,0; 1,0,0; 0,0,1] : Mat3) * (!![0,-1,0; 1,0,0; 0,0,1] : Mat3).transpose = 1)
      ∧ transform_coords ⟨!![0,-1,0; 1,0,0; 0,0,1], ![1,2,3], ""⟩
          (inverse_transformation ⟨!![0,-1,0; 1,0,0; 0,0,1], ![1,2,3], ""⟩)
          = { rotation := 1, translation := 0, name := "" } := by
  have horth : (!![0,-1,0; 1,0,0; 0,0,1] : Mat3) * (!![0,-1,0; 1,0,0; 0,0,1] : Mat3).transpose = 1 := by
    ext i j
    fin_cases i <;> fin_cases j <;>
      simp [Matrix.mul_apply, Fin.sum_univ_succ, Matrix.transpose_apply,
        Matrix.vecHead, Matrix.vecTail]
  exact ⟨horth, (claim_C8_inverse_identity ⟨!![0,-1,0; 1,0,0; 0,0,1], ![1,2,3], ""⟩ horth).1⟩

/-- Closed variant type for the `wrt` parameter of the mutators: the string
tokens `local`, `parent`, `world`, an explicit reference frame (a
`Coordinates` object), or an unrecognized value (which the dispatchers
reject). -/
inductive Wrt where
  | loc : Wrt
  | parent : Wrt
  | world : Wrt
  | frame : Coordinates → Wrt
  | unsupported : Wrt

/-- Model of `Coordinates.worldcoords` for a plain (non-cascaded) frame: it
returns the object itself. -/
def Coordinates.worldcoords (c : Coordinates) : Coordinates := c

/-- Modelled from the spec: `skrobot.coordinates.math.rotate_matrix` is not
under `src/`.  Per the spec composition rule for named-axis rotation
(`wrt = local` posts-multiplies, `wrt` in `parent`/`world` pre-multiplies, and
the source passes `world=True` exactly in the pre-multiply branch),
`rotate_matrix(M, theta, axis, world)` multiplies `M` by the axis-angle matrix
`delta = rotation_matrix(theta, axis)` on the right when `world` is unset and
on the left when `world` is truthy.  `delta` is passed explicitly since the
trigonometric construction of the axis-angle matrix is an external
collaborator. -/
def rotate_matrix (M delta : Mat3) (world : Bool) : Mat3 :=
  if world then delta * M else M * delta

/-- Model of `Coordinates.rotate_with_matrix(mat, wrt)` acting on the stored
rotation `R`: `local` multiplies on the right, `parent`/`world` on the left,
a reference frame conjugates `mat` by the frame world rotation, anything else
raises (`none`). -/
def Coordinates.rotate_with_matrix (R mat : Mat3) (w : Wrt) : Option Mat3 :=
  match w with
  | .loc => some (R * mat)
  | .parent => some (mat * R)
  | .world => some (mat * R)
  | .frame wc =>
      let r2 := wc.worldcoords.rotation
      let r2t₁ := mat * r2.transpose
      let r2t₂ := r2 * r2t₁
      some (r2t₂ * R)
  | .unsupported => none

/-- Model of `Coordinates.rotate(theta, axis, wrt)` for a named axis token,
acting on the stored rotation `R` with `delta = rotation_matrix(theta, axis)`:
the `local` branch calls `rotate_matrix` without the world flag, the
`parent`/`world` branch passes `True`, a frame `wrt` goes through
`rotate_with_matrix`, and an unrecognized `wrt` raises. -/
def Coordinates.rotateAx (R delta : Mat3) (w : Wrt) : Option Mat3 :=
  match w with
  | .loc => some (rotate_matrix R delta false)
  | .parent => some (rotate_matrix R delta true)
  | .world => some (rotate_matrix R delta true)
  | .frame wc => Coordinates.rotate_with_matrix R delta (.frame wc)
  | .unsupported => none

/-- Model of `CascadedCoords.rotate_with_matrix(matrix, wrt)` acting on the
stored local rotation `R`, where `P` is the world rotation of
`parentcoords()`.  The final `else` branch (reached for `world`, for a frame,
and for any other token) conjugates the matrix by `P`. -/
def CascadedCoords.rotate_with_matrix (R mat P : Mat3) (w : Wrt) : Mat3 :=
  match w with
  | .loc => R * mat
  | .parent => mat * R
  | .frame wc =>
      let m₁ := wc.worldcoords.rotation * mat
      let m₂ := m₁ * wc.worldcoords.rotation.transpose
      let m₃ := m₂ * P
      let m₄ := P.transpose * m₃
      m₄ * R
  | _ =>
      let m₃ := mat * P
      let m₄ := P.transpose * m₃
      m₄ * R

/-- Model of `CascadedCoords.rotate(theta, axis, wrt)` for a named axis token
(`delta = rotation_matrix(theta, axis)`): both the `local` and the `parent`
branches call `rotate_matrix(self._rotation, theta, axis)` without the world
flag, every other `wrt` is delegated to `CascadedCoords.rotate_with_matrix`. -/
def CascadedCoords.rotateAx (R delta P : Mat3) (w : Wrt) : Mat3 :=
  match w with
  | .loc => rotate_matrix R delta false
  | .parent => rotate_matrix R delta false
  | _ => CascadedCoords.rotate_with_matrix R delta P w

/-- Concrete 90 degree rotation about x, used in counterexamples. -/
def Rx90 : Mat3 := !![1,0,0; 0,0,-1; 0,1,0]

/-- Concrete 90 degree rotation about y, used in counterexamples. -/
def Ry90 : Mat3 := !![0,0,1; 0,1,0; -1,0,0]

/-- Concrete 90 degree rotation about z, used in counterexamples. -/
def Rz90 : Mat3 := !![0,-1,0; 1,0,0; 0,0,1]

/-- C3 counterexample: on a `CascadedCoords` node with local rotation `Rx90`,
`rotate(pi/2, z, wrt=parent)` with a named axis post-multiplies
(`R · delta`), which differs from the pre-multiplied `delta · R` the claim
demands; and with `wrt=world` under a parent whose world rotation is `Ry90`
the node conjugates `delta` by the parent rotation, which again differs from
`delta · R`. -/
theorem claim_C3_counterexample :
    CascadedCoords.rotateAx Rx90 Rz90 Ry90 .parent = Rx90 * Rz90
      ∧ Rx90 * Rz90 ≠ Rz90 * Rx90
      ∧ CascadedCoords.rotateAx Rx90 Rz90 Ry90 .world ≠ Rz90 * Rx90 := by
  refine ⟨rfl, ?_, ?_⟩
  · intro h
    have h2 := congrFun (congrFun h 0) 1
    simp [Rx90, Rz90, Matrix.mul_apply, Fin.sum_univ_succ,
      Matrix.vecHead, Matrix.vecTail] at h2
  · intro h
    have h2 := congrFun (congrFun h 0) 0
    simp [CascadedCoords.rotateAx, CascadedCoords.rotate_with_matrix,
      Coordinates.worldcoords, rotate_matrix, Rx90, Ry90, Rz90,
      Matrix.mul_apply, Fin.sum_univ_succ, Matrix.transpose_apply,
      Matrix.vecHead, Matrix.vecTail] at h2

/-- C3 amended: for a plain `Coordinates`, named-axis `rotate` post-multiplies
for `local` and pre-multiplies for `parent` and `world`, as claimed.  For a
`CascadedCoords` node the named-axis path post-multiplies for `local` AND for
`parent`, and for `world` it conjugates the axis-angle matrix by the world
rotation `P` of `parentcoords()` (so `delta · R` is recovered only when `P` is
the identity); the matrix-axis path (`rotate_with_matrix`) does pre-multiply
for `parent`. -/
theorem claim_C3_amended (R delta P : Mat3) :
    Coordinates.rotateAx R delta .loc = some (R * delta)
      ∧ Coordinates.rotateAx R delta .parent = some (delta * R)
      ∧ Coordinates.rotateAx R delta .world = some (delta * R)
      ∧ CascadedCoords.rotateAx R delta P .loc = R * delta
      ∧ CascadedCoords.rotateAx R delta P .parent = R * delta
      ∧ CascadedCoords.rotateAx R delta P .world = (P.transpose * (delta * P)) * R
      ∧ CascadedCoords.rotateAx R delta 1 .world = (delta * R)
      ∧ CascadedCoords.rotate_with_matrix R delta P .parent = delta * R := by
  refine ⟨rfl, rfl, rfl, rfl, rfl, rfl, ?_, rfl⟩
  simp [CascadedCoords.rotateAx, CascadedCoords.rotate_with_matrix]

/-- Model of `Coordinates.transform(c, wrt, out)` in the case where an output
object distinct from `self` is supplied.  The pair returned is
(`self` after the call, `out` after the call): the source writes only into
`out` (via `transform_coords(..., out)`), never into `self`.  An unrecognized
`wrt` raises (`none`). -/
def Coordinates.transform (self c out : Coordinates) (w : Wrt) :
    Option (Coordinates × Coordinates) :=
  match w with
  | .loc => some (self, transform_coords_out self c out)
  | .parent => some (self, transform_coords_out c self out)
  | .world => some (self, transform_coords_out c self out)
  | .frame wc =>
      let o₁ := transform_coords_out (inverse_transformation wc) self out
      let o₂ := transform_coords_out c o₁ o₁
      let o₃ := transform_coords_out wc.worldcoords o₂ o₂
      some (self, o₃)
  | .unsupported => none

/-- Model of `CascadedCoords.transform(c, wrt, out)` with an output object
distinct from `self`; `pc` is the world pose of `parentcoords()` (resolved
ambient frame).  The trailing `out.newcoords(out._rotation, out._translation)`
of the source re-commits the very values already stored in `out` and marks
`out` dirty; it never touches `self`, so it is omitted from this pose-level
model. -/
def CascadedCoords.transform (self c out pc : Coordinates) (w : Wrt) :
    Option (Coordinates × Coordinates) :=
  match w with
  | .frame wc =>
      let o₁ := transform_coords_out pc self out
      let o₂ := transform_coords_out (inverse_transformation wc) o₁ o₁
      let o₃ := transform_coords_out c o₂ o₂
      let o₄ := transform_coords_out wc.worldcoords o₃ o₃
      let o₅ := transform_coords_out (inverse_transformation pc) o₄ o₄
      some (self, o₅)
  | .loc => some (self, transform_coords_out self c out)
  | .parent => some (self, transform_coords_out c self out)
  | .world =>
      let o₁ := transform_coords_out pc self out
      let o₂ := transform_coords_out c o₁ o₁
      let o₃ := transform_coords_out (inverse_transformation pc) o₂ o₂
      some (self, o₃)
  | .unsupported => none

/-- C10: for every supported `wrt` and every output object distinct from
`self`, `transform(c, wrt, out)` writes the composed result into `out`
(rotation and translation are those of the corresponding `transform_coords`
chain, every other field of `out` is kept) and returns `self` unchanged as the
receiver.  Both the plain and the cascaded dispatcher are covered. -/
theorem claim_C10_transform_out (self c out pc wc : Coordinates) :
    Coordinates.transform self c out .loc
        = some (self, { out with
            rotation := (transform_coords self c).rotation,
            translation := (transform_coords self c).translation })
      ∧ Coordinates.transform self c out .parent
        = some (self, { out with
            rotation := (transform_coords c self).rotation,
            translation := (transform_coords c self).translation })
      ∧ Coordinates.transform self c out .world
        = some (self, { out with
            rotation := (transform_coords c self).rotation,
            translation := (transform_coords c self).translation })
      ∧ Coordinates.transform self c out (.frame wc)
        = some (self, { out with
            rotation := (transform_coords wc.worldcoords
              (transform_coords c
                (transform_coords (inverse_transformation wc) self))).rotation,
            translation := (transform_coords wc.worldcoords
              (transform_coords c
                (transform_coords (inverse_transformation wc) self))).translation })
      ∧ CascadedCoords.transform self c out pc .loc
        = some (self, { out with
            rotation := (transform_coords self c).rotation,
            translation := (transform_coords self c).translation })
      ∧ CascadedCoords.transform self c out pc .parent
        = some (self, { out with
            rotation := (transform_coords c self).rotation,
            translation := (transform_coords c self).translation })
      ∧ CascadedCoords.transform self c out pc .world
        = some (self, { out with
            rotation := (transform_coords (inverse_transformation pc)
              (transform_coords c (transform_coords pc self))).rotation,
            translation := (transform_coords (inverse_transformation pc)
              (transform_coords c (transform_coords pc self))).translation })
      ∧ CascadedCoords.transform self c out pc (.frame wc)
        = some (self, { out with
            rotation := (transform_coords (inverse_transformation pc)
              (transform_coords wc.worldcoords
                (transform_coords c
                  (transform_coords (inverse_transformation wc)
                    (transform_coords pc self))))).rotation,
            translation := (transform_coords (inverse_transformation pc)
              (transform_coords wc.worldcoords
                (transform_coords c
                  (transform_coords (inverse_transformation wc)
                    (transform_coords pc self))))).translation }) := by
  refine ⟨rfl, rfl, rfl, rfl, rfl, rfl, rfl, rfl⟩

/-- Modelled from the spec: `skrobot.coordinates.math._check_valid_rotation`
is not under `src/`.  Per the spec data-model invariant it accepts exactly the
orthonormal matrices of determinant one. -/
def check_valid_rotation (R : Mat3) : Prop :=
  R * R.transpose = 1 ∧ R.det = 1

instance (R : Mat3) : Decidable (check_valid_rotation R) := by
  unfold check_valid_rotation
  infer_instance

/-- Modelled from the spec: `skrobot.coordinates.math._check_valid_translation`
is not under `src/`.  It accepts exactly numeric sequences of length three;
the raw input is modelled as a rational list of arbitrary length. -/
def check_valid_translation (l : List ℚ) : Prop := l.length = 3

instance (l : List ℚ) : Decidable (check_valid_translation l) := by
  unfold check_valid_translation
  infer_instance

/-- Conversion of a validated length-3 list into a vector. -/
def vecOfList (l : List ℚ) : Vec3 := fun i => l.getD i 0

/-- Model of the `rotation` property setter (matrix branch; the quaternion and
yaw-pitch-roll branches first convert through external collaborators and then
join this same validate-and-commit path): validate with
`_check_valid_rotation`, then commit `_rotation`.  The pair returned is the
receiver state after the call together with the raised error, if any. -/
def rotation_setter (c : Coordinates) (R : Mat3) : Coordinates × Option String :=
  if check_valid_rotation R then ({ c with rotation := R }, none)
  else (c, some "invalid rotation")

/-- Model of the `translation` property setter: validate with
`_check_valid_translation`, then commit `_translation`. -/
def translation_setter (c : Coordinates) (l : List ℚ) : Coordinates × Option String :=
  if check_valid_translation l then ({ c with translation := vecOfList l }, none)
  else (c, some "invalid translation")

/-- Model of `Coordinates.newcoords(c, pos, check_validity=True)` with a
rotation matrix and a raw position sequence: the source assigns
`self.rotation = deepcopy(c)` (validated setter) and then
`self.translation = deepcopy(pos)` (validated setter), in that order.  The
object-identity short-circuits (`id(self._rotation) != id(c)`) are omitted:
they are vacuous for fresh inputs.  If the rotation setter raises, nothing has
been committed; if the translation setter raises, the rotation has already
been committed. -/
def Coordinates.newcoords_cv (self : Coordinates) (R : Mat3) (pos : List ℚ) :
    Coordinates × Option String :=
  let r := rotation_setter self R
  match r.2 with
  | some e => (r.1, some e)
  | none => translation_setter r.1 pos

/-- Model of `Coordinates.parent_orientation(v, wrt)`: `local` rotates `v` by
the own rotation, `parent`/`world` pass `v` through, a frame rotates by the
frame world rotation, anything else raises. -/
def parent_orientation (self : Coordinates) (v : Vec3) (w : Wrt) : Option Vec3 :=
  match w with
  | .loc => some (self.rotation.mulVec v)
  | .parent => some v
  | .world => some v
  | .frame wc => some (wc.worldcoords.rotation.mulVec v)
  | .unsupported => none

/-- Model of `Coordinates.translate(vec, wrt)`: commit
`translation := parent_orientation(vec, wrt) + translation` via `newcoords`
(no validation on this path, `check_validity=False`); an unsupported `wrt`
raises inside `parent_orientation`, before any mutation. -/
def Coordinates.translate (self : Coordinates) (v : Vec3) (w : Wrt) :
    Coordinates × Option String :=
  match parent_orientation self v w with
  | none => (self, some "unsupported wrt")
  | some pv => ({ self with translation := pv + self.translation }, none)

/-- Concrete receiver used in the C6 counterexample. -/
def c6state : Coordinates := ⟨Rz90, ![0,0,0], ""⟩

/-- C6 counterexample: `newcoords` with a valid rotation (the identity) and an
invalid translation (length-2 sequence) raises, but the receiver rotation has
already been overwritten: the observable state after the raise differs from
the state before the call, refuting the no-partial-mutation claim. -/
theorem claim_C6_counterexample :
    (Coordinates.newcoords_cv c6state 1 [1, 2]).2.isSome = true
      ∧ (Coordinates.newcoords_cv c6state 1 [1, 2]).1.rotation ≠ c6state.rotation := by
  have hv : check_valid_rotation (1 : Mat3) := ⟨by simp, by simp⟩
  have hres : Coordinates.newcoords_cv c6state 1 [1, 2]
      = ({ c6state with rotation := 1 }, some "invalid translation") := by
    rw [Coordinates.newcoords_cv, rotation_setter, if_pos hv]
    rw [translation_setter, if_neg (by norm_num [check_valid_translation])]
  rw [hres]
  refine ⟨rfl, ?_⟩
  intro h
  have h2 := congrFun (congrFun h 0) 1
  simp [c6state, Rz90, Matrix.one_apply] at h2

/-- C6 amended: the validated setters and the `wrt`-dispatching mutator
`translate` are atomic (an error leaves the receiver exactly as before the
call), but `newcoords` with validation enabled is not: it can commit the new
rotation before the translation check fails.  What survives of the claim is
that even then the translation is never partially committed. -/
theorem claim_C6_amended :
    (∀ (c : Coordinates) (R : Mat3) (e : String),
        (rotation_setter c R).2 = some e → (rotation_setter c R).1 = c)
      ∧ (∀ (c : Coordinates) (l : List ℚ) (e : String),
          (translation_setter c l).2 = some e → (translation_setter c l).1 = c)
      ∧ (∀ (c : Coordinates) (v : Vec3) (w : Wrt) (e : String),
          (Coordinates.translate c v w).2 = some e → (Coordinates.translate c v w).1 = c)
      ∧ (∀ (c : Coordinates) (R : Mat3) (pos : List ℚ) (e : String),
          (Coordinates.newcoords_cv c R pos).2 = some e →
            (Coordinates.newcoords_cv c R pos).1.translation = c.translation) := by
  refine ⟨?_, ?_, ?_, ?_⟩
  · intro c R e h
    by_cases hv : check_valid_rotation R
    · rw [rotation_setter, if_pos hv] at h
      simp at h
    · rw [rotation_setter, if_neg hv]
  · intro c l e h
    by_cases hv : check_valid_translation l
    · rw [translation_setter, if_pos hv] at h
      simp at h
    · rw [translation_setter, if_neg hv]
  · intro c v w e h
    cases w <;> simp [Coordinates.translate, parent_orientation] at h ⊢
  · intro c R pos e h
    by_cases hv : check_valid_rotation R
    · by_cases ht : check_valid_translation pos
      · rw [Coordinates.newcoords_cv, rotation_setter, if_pos hv] at h
        simp only at h
        rw [translation_setter, if_pos ht] at h
        simp at h
      · rw [Coordinates.newcoords_cv, rotation_setter, if_pos hv]
        simp only
        rw [translation_setter, if_neg ht]
    · rw [Coordinates.newcoords_cv, rotation_setter, if_neg hv]

/-- Witness for the C6 amended theorem: the rotation setter applied to a
concrete invalid matrix (the zero matrix) raises and leaves the concrete
receiver unchanged. -/
theorem claim_C6_witness :
    (rotation_setter c6state 0).2 = some "invalid rotation"
      ∧ (rotation_setter c6state 0).1 = c6state := by
  have hv : ¬ check_valid_rotation (0 : Mat3) := by
    intro hc
    have h2 := congrFun (congrFun hc.1 0) 0
    simp [Matrix.one_apply] at h2
  have h1 : (rotation_setter c6state 0).2 = some "invalid rotation" := by
    rw [rotation_setter, if_neg hv]
  exact ⟨h1, claim_C6_amended.1 c6state 0 "invalid rotation" h1⟩

/-- Quaternions in `[w, x, y, z]` component order. -/
abbrev Quat := Fin 4 → ℚ

/-- Modelled from the spec: `skrobot.coordinates.math.quaternion2matrix` is
not under `src/`.  Standard quaternion-to-rotation-matrix formula in its
homogeneous (sign-invariant, degree-two) form; for unit quaternions it agrees
with the usual `1 - 2(y² + z²)` form. -/
def quaternion2matrix (q : Quat) : Mat3 :=
  let w := q 0
  let x := q 1
  let y := q 2
  let z := q 3
  !![w^2 + x^2 - y^2 - z^2, 2*(x*y - w*z), 2*(x*z + w*y);
     2*(x*y + w*z), w^2 - x^2 + y^2 - z^2, 2*(y*z - w*x);
     2*(x*z - w*y), 2*(y*z + w*x), w^2 - x^2 - y^2 + z^2]

/-- Dot product of two quaternions (`np.dot(q1, q2)`). -/
def quatDot (q1 q2 : Quat) : ℚ :=
  q1 0 * q2 0 + q1 1 * q2 1 + q1 2 * q2 2 + q1 3 * q2 3

/-- Model of `lerp_coordinates(c1, c2, t)`.  The two external collaborators
are passed explicitly: `m2q` models `matrix2quaternion` (the `quaternion`
property of the operands) and `vnorm` models `np.linalg.norm` on quaternions;
both live outside `src/`.  Out-of-range `t` raises (`none`); otherwise the
translation is blended linearly, the quaternions are blended after the
shortest-path sign correction, renormalized, and converted back. -/
def lerp_coordinates (m2q : Mat3 → Quat) (vnorm : Quat → ℚ)
    (c1 c2 : Coordinates) (t : ℚ) : Option Coordinates :=
  if ¬ (0 ≤ t ∧ t ≤ 1) then none
  else
    let pos1 := c1.translation
    let pos2 := c2.translation
    let interpolated_pos := pos1 + t • (pos2 - pos1)
    let q1 := m2q c1.rotation
    let q2 := m2q c2.rotation
    let q2s := if quatDot q1 q2 < 0 then -q2 else q2
    let lerp_q := (1 - t) • q1 + t • q2s
    let lerp_qn := (vnorm lerp_q)⁻¹ • lerp_q
    some ⟨quaternion2matrix lerp_qn, interpolated_pos, ""⟩

lemma quaternion2matrix_neg (q : Quat) :
    quaternion2matrix (-q) = quaternion2matrix q := by
  unfold quaternion2matrix
  simp only [Pi.neg_apply]
  ring_nf

/-- C9: `lerp(c1, c2, 0)` has the translation and rotation of `c1` and
`lerp(c1, c2, 1)` those of `c2`.  The hypotheses are the defining contract of
the external conversions on the two operands: `matrix2quaternion` returns a
quaternion converting back to the given rotation, and the norm routine
returns 1 on those (unit) quaternions and their negations. -/
theorem claim_C9_lerp_boundary (m2q : Mat3 → Quat) (vnorm : Quat → ℚ)
    (c1 c2 : Coordinates)
    (hm1 : quaternion2matrix (m2q c1.rotation) = c1.rotation)
    (hm2 : quaternion2matrix (m2q c2.rotation) = c2.rotation)
    (hn1 : vnorm (m2q c1.rotation) = 1)
    (hn2 : vnorm (m2q c2.rotation) = 1)
    (hn2m : vnorm (-(m2q c2.rotation)) = 1) :
    (lerp_coordinates m2q vnorm c1 c2 0).map Coordinates.rotation
        = some c1.rotation
      ∧ (lerp_coordinates m2q vnorm c1 c2 0).map Coordinates.translation
        = some c1.translation
      ∧ (lerp_coordinates m2q vnorm c1 c2 1).map Coordinates.rotation
        = some c2.rotation
      ∧ (lerp_coordinates m2q vnorm c1 c2 1).map Coordinates.translation
        = some c2.translation := by
  have h0 : ((0:ℚ) ≤ 0 ∧ (0:ℚ) ≤ 1) := by norm_num
  have h1 : ((0:ℚ) ≤ 1 ∧ (1:ℚ) ≤ 1) := by norm_num
  by_cases hd : quatDot (m2q c1.rotation) (m2q c2.rotation) < 0
  · simp only [lerp_coordinates, h0, h1, not_true_eq_false, and_self,
      if_neg, if_true, if_pos hd, not_false_eq_true, ite_false, ite_true,
      sub_zero, one_smul, zero_smul, add_zero, zero_add, sub_self,
      Option.map_some]
    rw [hn1, hn2m]
    simp [quaternion2matrix_neg, hm1, hm2, add_sub_cancel]
  · simp only [lerp_coordinates, h0, h1, not_true_eq_false, and_self,
      if_neg, if_true, if_pos, hd, not_false_eq_true, ite_false, ite_true,
      sub_zero, one_smul, zero_smul, add_zero, zero_add, sub_self,
      Option.map_some]
    rw [hn1, hn2]
    simp [hm1, hm2, add_sub_cancel]

/-- Concrete starting pose for the C9 witness. -/
def lerpW1 : Coordinates := ⟨quaternion2matrix ![1,0,0,0], ![0,0,0], ""⟩

/-- Concrete ending pose for the C9 witness. -/
def lerpW2 : Coordinates := ⟨quaternion2matrix ![1,0,0,0], ![1,2,3], ""⟩

/-- Witness for C9 with the conversion collaborators instantiated concretely
(constant unit quaternion and constant norm 1 on all inputs used). -/
theorem claim_C9_witness :
    (quaternion2matrix ((fun _ => ![1,0,0,0] : Mat3 → Quat) lerpW1.rotation)
        = lerpW1.rotation)
      ∧ ((fun _ => (1:ℚ) : Quat → ℚ) ((fun _ => ![1,0,0,0] : Mat3 → Quat) lerpW1.rotation) = 1)
      ∧ (lerp_coordinates (fun _ => ![1,0,0,0]) (fun _ => 1) lerpW1 lerpW2 0).map
          Coordinates.translation = some lerpW1.translation := by
  refine ⟨rfl, rfl, ?_⟩
  exact (claim_C9_lerp_boundary (fun _ => ![1,0,0,0]) (fun _ => 1) lerpW1 lerpW2
    rfl rfl rfl rfl rfl).2.1

/-- Embedding of one `CascadedCoords` object: its local pose
(`_rotation`/`_translation` wrapped as a `Coordinates`), the `_parent`
back-reference, the `_descendants` registry, the `_changed` dirty flag and the
privately owned `_worldcoords` cache.  Objects are addressed by natural-number
identities. -/
structure Node where
  pose : Coordinates
  parent : Option Nat
  descendants : List Nat
  changed : Bool
  wcache : Coordinates

/-- The shared mutable object graph: one `Node` per object identity. -/
abbrev CCState := Nat → Node

/-- Overwrite the node stored at identity `i`. -/
def setNode (s : CCState) (i : Nat) (n : Node) : CCState :=
  fun j => if j = i then n else s j

/-- Field-wise pose copy: writes `_rotation` and `_translation` of `src` into
`dst`, preserving every other field of `dst` (this is how the source commits
poses, e.g. `self._rotation = np.copy(c._rotation)`). -/
def writePose (dst src : Coordinates) : Coordinates :=
  { dst with rotation := src.rotation, translation := src.translation }

/-- Model of `CascadedCoords.changed`: if the node is clean, mark it dirty and
recurse into its descendants; if it is already dirty, stop (its subtree is not
revisited).  The recursion of the source is bounded here by explicit `fuel`;
for an acyclic graph any `fuel` larger than the subtree depth computes the
same fixed point as the source. -/
def changedAux : Nat → CCState → Nat → CCState
  | 0, s, _ => s
  | fuel + 1, s, i =>
    let n := s i
    if n.changed then s
    else
      let s1 := setNode s i { n with changed := true }
      n.descendants.foldl (fun acc j => changedAux fuel acc j) s1

/-- Model of `CascadedCoords.update`: a clean node returns unchanged; a dirty
node first brings the world pose of its parent up to date
(`self._parent.worldcoords()`), then writes
`transform_coords(parent_world, self, self._worldcoords)` into its cache (or
its own local pose, if it has no parent) and clears the dirty flag.  The
ancestor recursion of the source is bounded by explicit `fuel`. -/
def updateAux : Nat → CCState → Nat → CCState
  | 0, s, _ => s
  | fuel + 1, s, i =>
    let n := s i
    if n.changed = false then s
    else
      match n.parent with
      | none =>
          setNode s i
            { n with wcache := writePose n.wcache n.pose, changed := false }
      | some p =>
          let s' := updateAux fuel s p
          let n' := s' i
          setNode s' i
            { n' with
              wcache := writePose n'.wcache (transform_coords (s' p).wcache n'.pose),
              changed := false }

/-- Model of `CascadedCoords.newcoords(c, relative_coords=local)`, the
commit path shared by `translate`, `rotate` and `transform`: write the new
local pose (the superclass `newcoords`), then call `changed()`. -/
def CascadedCoords.newcoords_local (fuel : Nat) (s : CCState) (i : Nat)
    (c : Coordinates) : CCState :=
  let s1 := setNode s i { s i with pose := writePose (s i).pose c }
  changedAux fuel s1 i

/-- Model of direct assignment `node.rotation = R` on a cascaded node: the
inherited property setter validates and writes `_rotation` and does nothing
else — in particular it never touches any `_changed` flag. -/
def node_rotation_setter (s : CCState) (i : Nat) (R : Mat3) :
    CCState × Option String :=
  let r := rotation_setter (s i).pose R
  (setNode s i { s i with pose := r.1 }, r.2)

/-- Model of `CascadedCoords.translate(vec, wrt)` (inherited from
`Coordinates`, dispatching into the overridden `newcoords`): compute
`parent_orientation(vec, wrt) + translation` and commit it through the
`newcoords` local path. -/
def node_translate (fuel : Nat) (s : CCState) (i : Nat) (v : Vec3) (w : Wrt) :
    CCState × Option String :=
  match parent_orientation (s i).pose v w with
  | none => (s, some "unsupported wrt")
  | some pv =>
      (CascadedCoords.newcoords_local fuel s i
        { (s i).pose with translation := pv + (s i).pose.translation }, none)

/-- The parent-link and local-pose commit inside `assoc`: set
`child.parent = self` and write the new local pose through the superclass
`newcoords` (object `c` in state `sC`, new pose `rel`). -/
def assoc_commit (sC : CCState) (p c : Nat) (rel : Coordinates) : CCState :=
  let s1 := setNode sC c { sC c with parent := some p }
  setNode s1 c { s1 c with pose := writePose (s1 c).pose rel }

/-- The tail of `assoc` after the new local pose `rel` has been computed in
state `sC`: commit parent link and pose, run `changed()` on the child, then
append the child to the descendant registry of the parent. -/
def assoc_tail (fuel : Nat) (sC : CCState) (p c : Nat) (rel : Coordinates) : CCState :=
  let s3 := changedAux fuel (assoc_commit sC p c rel) c
  setNode s3 p { s3 p with descendants := (s3 p).descendants ++ [c] }

/-- The main path of `assoc(child, relative_coords=world)` once the guards
have passed: update the world caches of parent and child, compute the new
local pose `transformation(self.worldcoords(), child.worldcoords())` (which
preserves the world pose of the child), and commit. -/
def assoc_world_main (fuel : Nat) (s : CCState) (p c : Nat) : CCState :=
  let sP := updateAux fuel s p
  let sC := updateAux fuel sP c
  let rel := transform_coords (inverse_transformation (sC p).wcache) (sC c).wcache
  assoc_tail fuel sC p c rel

/-- Model of `CascadedCoords.assoc(child, relative_coords=world)` with the
default `force=False`: reject self-association and an already-parented child;
an already-registered child is left untouched; otherwise run the main path. -/
def assoc_world (fuel : Nat) (s : CCState) (p c : Nat) : Option CCState :=
  if p = c then none
  else if (s c).parent ≠ none then none
  else some <|
    if c ∈ (s p).descendants then s
    else assoc_world_main fuel s p c

/-- The registry, parent-link and local-pose commit inside `dissoc`: remove
the registry entry of `c` at `p`, clear the parent link of `c`, and write the
world-pose snapshot `snap` as the new local pose of `c`. -/
def dissoc_commit (s1 : CCState) (p c : Nat) (snap : Coordinates) : CCState :=
  let s2 := setNode s1 p { s1 p with descendants := (s1 p).descendants.erase c }
  let s3 := setNode s2 c { s2 c with parent := none }
  setNode s3 c { s3 c with pose := writePose (s3 c).pose snap }

/-- Model of `CascadedCoords.dissoc(child)`: a silent no-op unless the child
is registered; otherwise snapshot `child.worldcoords()`, remove the registry
entry, clear the parent link, and commit the snapshot as the new local pose
through `newcoords` (which, in the source, ends by calling `changed()`). -/
def dissoc (fuel : Nat) (s : CCState) (p c : Nat) : CCState :=
  if c ∈ (s p).descendants then
    let s1 := updateAux fuel s c
    changedAux fuel (dissoc_commit s1 p c ((s1 c).wcache)) c
  else s

lemma setNode_same (s : CCState) (i : Nat) (n : Node) : (setNode s i n) i = n := by
  simp [setNode]

lemma setNode_other (s : CCState) (i : Nat) (n : Node) (j : Nat) (h : j ≠ i) :
    (setNode s i n) j = s j := by
  simp [setNode, h]

/-- Projection of the fields of a node that `changed()` never modifies. -/
def nonFlag (n : Node) : Coordinates × Option Nat × List Nat × Coordinates :=
  (n.pose, n.parent, n.descendants, n.wcache)

lemma foldl_pres {P : CCState → Prop} (g : CCState → Nat → CCState)
    (hg : ∀ t a, P t → P (g t a)) :
    ∀ (l : List Nat) (t : CCState), P t → P (l.foldl g t) := by
  intro l
  induction l with
  | nil => intro t ht; exact ht
  | cons a l ih => intro t ht; exact ih (g t a) (hg t a ht)

lemma changedAux_nonFlag :
    ∀ (f : Nat) (s : CCState) (i j : Nat),
      nonFlag ((changedAux f s i) j) = nonFlag (s j) := by
  intro f
  induction f with
  | zero => intro s i j; rfl
  | succ f ih =>
    intro s i j
    rw [changedAux]
    by_cases hc : (s i).changed
    · rw [if_pos hc]
    · rw [if_neg hc]
      have base : ∀ j', nonFlag ((setNode s i { s i with changed := true }) j')
          = nonFlag (s j') := by
        intro j'
        by_cases hj : j' = i
        · subst hj; rw [setNode_same]; rfl
        · rw [setNode_other _ _ _ _ hj]
      exact foldl_pres (P := fun t => ∀ j', nonFlag (t j') = nonFlag (s j'))
        (fun acc k => changedAux f acc k)
        (fun t a ht j' => (ih t a j').trans (ht j')) _ _ base j

lemma changedAux_mono :
    ∀ (f : Nat) (s : CCState) (i j : Nat),
      (s j).changed = true → ((changedAux f s i) j).changed = true := by
  intro f
  induction f with
  | zero => intro s i j h; exact h
  | succ f ih =>
    intro s i j h
    rw [changedAux]
    by_cases hc : (s i).changed
    · rw [if_pos hc]; exact h
    · rw [if_neg hc]
      have base : ((setNode s i { s i with changed := true }) j).changed = true := by
        by_cases hj : j = i
        · subst hj; rw [setNode_same]
        · rw [setNode_other _ _ _ _ hj]
          exact h
      exact foldl_pres (P := fun t => (t j).changed = true)
        (fun acc k => changedAux f acc k)
        (fun t a ht => ih t a j ht) _ _ base

lemma changedAux_self (f : Nat) (hf : 1 ≤ f) (s : CCState) (i : Nat) :
    ((changedAux f s i) i).changed = true := by
  obtain ⟨f', rfl⟩ : ∃ f', f = f' + 1 := ⟨f - 1, by omega⟩
  rw [changedAux]
  by_cases hc : (s i).changed
  · rw [if_pos hc]; exact hc
  · rw [if_neg hc]
    have base : ((setNode s i { s i with changed := true }) i).changed = true := by
      rw [setNode_same]
    exact foldl_pres (P := fun t => (t i).changed = true)
      (fun acc k => changedAux f' acc k)
      (fun t a ht => changedAux_mono f' t a i ht) _ _ base

lemma foldl_changed_mem (f : Nat) (hf : 1 ≤ f) :
    ∀ (l : List Nat) (t : CCState) (j : Nat), j ∈ l →
      ((l.foldl (fun acc k => changedAux f acc k) t) j).changed = true := by
  intro l
  induction l with
  | nil => intro t j hj; cases hj
  | cons a l ih =>
    intro t j hj
    rcases List.mem_cons.mp hj with rfl | hj'
    · by_cases hl : j ∈ l
      · exact ih _ j hl
      · show ((l.foldl (fun acc k => changedAux f acc k) (changedAux f t j)) j).changed = true
        exact foldl_pres (P := fun t' => (t' j).changed = true)
          (fun acc k => changedAux f acc k)
          (fun t' a' ht' => changedAux_mono f t' a' j ht') _ _
          (changedAux_self f hf t j)
    · exact ih _ j hj'

lemma changedAux_descendant (f : Nat) (hf : 2 ≤ f) (s : CCState) (i j : Nat)
    (hc : (s i).changed = false) (hj : j ∈ (s i).descendants) :
    ((changedAux f s i) j).changed = true := by
  obtain ⟨f', rfl⟩ : ∃ f', f = f' + 1 := ⟨f - 1, by omega⟩
  rw [changedAux]
  rw [if_neg (by rw [hc]; exact Bool.false_ne_true)]
  exact foldl_changed_mem f' (by omega) _ _ j hj

lemma updateAux_clean (f : Nat) (s : CCState) (i : Nat)
    (h : (s i).changed = false) : updateAux f s i = s := by
  cases f with
  | zero => rfl
  | succ f =>
    simp only [updateAux]
    rw [if_pos h]

lemma updateAux_root_dirty (f : Nat) (s : CCState) (i : Nat)
    (hroot : (s i).parent = none) (h : (s i).changed = true) (hf : 1 ≤ f) :
    updateAux f s i
      = setNode s i
          { s i with wcache := writePose (s i).wcache (s i).pose, changed := false } := by
  obtain ⟨f', rfl⟩ : ∃ f', f = f' + 1 := ⟨f - 1, by omega⟩
  simp only [updateAux]
  rw [if_neg (by simp [h]), hroot]

lemma updateAux_root_other (f : Nat) (s : CCState) (i : Nat)
    (hroot : (s i).parent = none) (j : Nat) (hj : j ≠ i) :
    (updateAux f s i) j = s j := by
  cases f with
  | zero => rfl
  | succ f =>
    simp only [updateAux]
    by_cases hc : (s i).changed = false
    · rw [if_pos hc]
    · rw [if_neg hc, hroot]
      exact setNode_other _ _ _ _ hj

/-- Projection of the fields of a node that `update()` never modifies. -/
def coreData (n : Node) : Coordinates × Option Nat × List Nat :=
  (n.pose, n.parent, n.descendants)

lemma updateAux_core :
    ∀ (f : Nat) (s : CCState) (i j : Nat),
      coreData ((updateAux f s i) j) = coreData (s j) := by
  intro f
  induction f with
  | zero => intro s i j; rfl
  | succ f ih =>
    intro s i j
    simp only [updateAux]
    by_cases hc : (s i).changed = false
    · rw [if_pos hc]
    · rw [if_neg hc]
      cases hp : (s i).parent with
      | none =>
        by_cases hj : j = i
        · subst hj
          simp [setNode, coreData, hp]
        · simp [setNode, hj, coreData]
      | some p =>
        have h3 := ih s p j
        simp only [coreData, Prod.mk.injEq] at h3
        by_cases hj : j = i
        · subst hj
          simp [setNode, coreData, h3.1, h3.2.1, h3.2.2, hp]
        · simp [setNode, hj, coreData, h3.1, h3.2.1, h3.2.2]

lemma updateAux_root_spec (f : Nat) (s : CCState) (p : Nat)
    (hroot : (s p).parent = none) (hf : 1 ≤ f)
    (hinv : (s p).changed = false →
      (s p).wcache.rotation = (s p).pose.rotation
        ∧ (s p).wcache.translation = (s p).pose.translation) :
    ((updateAux f s p) p).wcache.rotation = (s p).pose.rotation
      ∧ ((updateAux f s p) p).wcache.translation = (s p).pose.translation
      ∧ ((updateAux f s p) p).changed = false
      ∧ coreData ((updateAux f s p) p) = coreData (s p)
      ∧ ∀ j, j ≠ p → (updateAux f s p) j = s j := by
  by_cases hc : (s p).changed = false
  · rw [updateAux_clean f s p hc]
    exact ⟨(hinv hc).1, (hinv hc).2, hc, rfl, fun j _ => rfl⟩
  · have hc' : (s p).changed = true := by
      cases h : (s p).changed
      · exact absurd h hc
      · rfl
    rw [updateAux_root_dirty f s p hroot hc' hf]
    refine ⟨?_, ?_, ?_, ?_, fun j hj => setNode_other _ _ _ _ hj⟩
    · rw [setNode_same]
      rfl
    · rw [setNode_same]
      rfl
    · rw [setNode_same]
    · rw [setNode_same]
      rfl

lemma changedAux_pose (f : Nat) (s : CCState) (i j : Nat) :
    ((changedAux f s i) j).pose = (s j).pose :=
  congrArg (fun q => q.1) (changedAux_nonFlag f s i j)

lemma changedAux_parent (f : Nat) (s : CCState) (i j : Nat) :
    ((changedAux f s i) j).parent = (s j).parent :=
  congrArg (fun q => q.2.1) (changedAux_nonFlag f s i j)

lemma changedAux_descendants (f : Nat) (s : CCState) (i j : Nat) :
    ((changedAux f s i) j).descendants = (s j).descendants :=
  congrArg (fun q => q.2.2.1) (changedAux_nonFlag f s i j)

lemma changedAux_wcache (f : Nat) (s : CCState) (i j : Nat) :
    ((changedAux f s i) j).wcache = (s j).wcache :=
  congrArg (fun q => q.2.2.2) (changedAux_nonFlag f s i j)

lemma updateAux_pose (f : Nat) (s : CCState) (i j : Nat) :
    ((updateAux f s i) j).pose = (s j).pose :=
  congrArg (fun q => q.1) (updateAux_core f s i j)

lemma updateAux_parent (f : Nat) (s : CCState) (i j : Nat) :
    ((updateAux f s i) j).parent = (s j).parent :=
  congrArg (fun q => q.2.1) (updateAux_core f s i j)

lemma updateAux_descendants (f : Nat) (s : CCState) (i j : Nat) :
    ((updateAux f s i) j).descendants = (s j).descendants :=
  congrArg (fun q => q.2.2) (updateAux_core f s i j)

lemma dissoc_commit_at_c (s1 : CCState) (p c : Nat) (snap : Coordinates)
    (hpc : p ≠ c) :
    (dissoc_commit s1 p c snap) c
      = { s1 c with parent := none,
                    pose := writePose (s1 c).pose snap } := by
  simp only [dissoc_commit]
  rw [setNode_same]
  rw [setNode_same]
  rw [setNode_other _ _ _ _ (Ne.symm hpc)]

lemma dissoc_commit_at_p (s1 : CCState) (p c : Nat) (snap : Coordinates)
    (hpc : p ≠ c) :
    (dissoc_commit s1 p c snap) p
      = { s1 p with descendants := (s1 p).descendants.erase c } := by
  simp only [dissoc_commit]
  rw [setNode_other _ _ _ _ hpc, setNode_other _ _ _ _ hpc, setNode_same]

lemma assoc_commit_at_c (sC : CCState) (p c : Nat) (rel : Coordinates) :
    (assoc_commit sC p c rel) c
      = { sC c with parent := some p,
                    pose := writePose (sC c).pose rel } := by
  simp only [assoc_commit]
  rw [setNode_same, setNode_same]

lemma assoc_commit_other (sC : CCState) (p c : Nat) (rel : Coordinates)
    (j : Nat) (hj : j ≠ c) :
    (assoc_commit sC p c rel) j = sC j := by
  simp only [assoc_commit]
  rw [setNode_other _ _ _ _ hj, setNode_other _ _ _ _ hj]

/-- Concrete single-node state for the C2 counterexample: one clean root
whose cached world pose is valid. -/
def c2state : CCState := fun _ =>
  { pose := ⟨Rz90, ![0,0,0], ""⟩, parent := none, descendants := [],
    changed := false, wcache := ⟨Rz90, ![0,0,0], ""⟩ }

/-- C2 counterexample: direct assignment of a (valid) rotation matrix to the
rotation property of a CLEAN cascaded node succeeds and overwrites the stored
rotation, but the node stays CLEAN — the inherited setter never touches the
dirty flag, so the stale cached world pose would be served on the next read. -/
theorem claim_C2_counterexample :
    (c2state 0).changed = false
      ∧ (node_rotation_setter c2state 0 1).2 = none
      ∧ ((node_rotation_setter c2state 0 1).1 0).changed = false
      ∧ ((node_rotation_setter c2state 0 1).1 0).pose.rotation = 1
      ∧ (c2state 0).pose.rotation ≠ 1 := by
  have hv : check_valid_rotation (1 : Mat3) := ⟨by simp, by simp⟩
  have hr : node_rotation_setter c2state 0 1
      = (setNode c2state 0
          { c2state 0 with pose := { (c2state 0).pose with rotation := 1 } }, none) := by
    simp only [node_rotation_setter, rotation_setter]
    rw [if_pos hv]
  have hr1 : (node_rotation_setter c2state 0 1).1
      = setNode c2state 0
          { c2state 0 with pose := { (c2state 0).pose with rotation := 1 } } :=
    congrArg Prod.fst hr
  have hr2 : (node_rotation_setter c2state 0 1).2 = none :=
    congrArg Prod.snd hr
  refine ⟨rfl, hr2, ?_, ?_, ?_⟩
  · rw [hr1, setNode_same]
    rfl
  · rw [hr1, setNode_same]
  · intro h
    have h2 := congrFun (congrFun h 0) 1
    simp [c2state, Rz90, Matrix.one_apply] at h2

/-- C2 amended: on a CLEAN node, the mutators that go through `newcoords`
(`translate`, `rotate`, `transform` — modelled by their shared local commit
path) mark the node and its registered descendants DIRTY, so the next
world-pose read recomputes; direct assignment to the `rotation` property,
by contrast, changes no dirty flag anywhere in the graph. -/
theorem claim_C2_dirty_propagation (fuel : Nat) (s : CCState) (i : Nat)
    (c : Coordinates) (v : Vec3)
    (hf : 2 ≤ fuel) (hclean : (s i).changed = false) :
    (((CascadedCoords.newcoords_local fuel s i c) i).changed = true
        ∧ ∀ j, j ∈ (s i).descendants →
            ((CascadedCoords.newcoords_local fuel s i c) j).changed = true)
      ∧ (((node_translate fuel s i v .loc).1 i).changed = true)
      ∧ (∀ R j, ((node_rotation_setter s i R).1 j).changed = (s j).changed) := by
  refine ⟨⟨?_, ?_⟩, ?_, ?_⟩
  · exact changedAux_self fuel (by omega)
      (setNode s i { s i with pose := writePose (s i).pose c }) i
  · intro j hj
    apply changedAux_descendant fuel hf _ i j
    · show ((setNode s i { s i with pose := writePose (s i).pose c }) i).changed = false
      rw [setNode_same]
      exact hclean
    · show j ∈ ((setNode s i { s i with pose := writePose (s i).pose c }) i).descendants
      rw [setNode_same]
      exact hj
  · exact changedAux_self fuel (by omega) _ i
  · intro R j
    by_cases hj : j = i
    · subst hj
      show ((setNode s j _) j).changed = (s j).changed
      rw [setNode_same]
    · show ((setNode s i _) j).changed = (s j).changed
      rw [setNode_other _ _ _ _ hj]

/-- Concrete two-node state (clean root 0 with registered descendant 1) for
the C2 witness. -/
def c2wit : CCState := fun n =>
  if n = 0 then
    { pose := ⟨1, ![0,0,0], ""⟩, parent := none, descendants := [1],
      changed := false, wcache := ⟨1, ![0,0,0], ""⟩ }
  else
    { pose := ⟨1, ![1,2,3], ""⟩, parent := some 0, descendants := [],
      changed := false, wcache := ⟨1, ![1,2,3], ""⟩ }

/-- Witness for the C2 amended theorem: committing a new local pose to the
concrete clean root marks the root and its registered descendant dirty. -/
theorem claim_C2_witness :
    ((2:Nat) ≤ 2 ∧ (c2wit 0).changed = false)
      ∧ ((CascadedCoords.newcoords_local 2 c2wit 0 ⟨1, ![1,1,1], ""⟩) 0).changed = true
      ∧ ((CascadedCoords.newcoords_local 2 c2wit 0 ⟨1, ![1,1,1], ""⟩) 1).changed = true := by
  refine ⟨⟨by omega, rfl⟩, ?_, ?_⟩
  · exact (claim_C2_dirty_propagation 2 c2wit 0 ⟨1, ![1,1,1], ""⟩ ![0,0,0]
      (by omega) rfl).1.1
  · exact (claim_C2_dirty_propagation 2 c2wit 0 ⟨1, ![1,1,1], ""⟩ ![0,0,0]
      (by omega) rfl).1.2 1 (by simp [c2wit])

/-- C4 amended: after `dissoc(child)` on a registered child, the child has no
parent, the world pose returned by `child.worldcoords()` at dissoc time is
frozen as the new local pose, the registry entry is removed — but the child is
left DIRTY, not clean: the trailing `changed()` of `newcoords` sets the flag.
The next world-pose read still returns the frozen snapshot (a parentless
update copies the local pose into the cache). -/
theorem claim_C4_dissoc (fuel : Nat) (s : CCState) (p c : Nat)
    (hf : 1 ≤ fuel) (hmem : c ∈ (s p).descendants) (hpc : p ≠ c) :
    ((dissoc fuel s p c) c).parent = none
      ∧ ((dissoc fuel s p c) c).pose.rotation = ((updateAux fuel s c) c).wcache.rotation
      ∧ ((dissoc fuel s p c) c).pose.translation
          = ((updateAux fuel s c) c).wcache.translation
      ∧ ((dissoc fuel s p c) p).descendants = (s p).descendants.erase c
      ∧ ((dissoc fuel s p c) c).changed = true
      ∧ ((updateAux 1 (dissoc fuel s p c) c) c).wcache.rotation
          = ((updateAux fuel s c) c).wcache.rotation
      ∧ ((updateAux 1 (dissoc fuel s p c) c) c).wcache.translation
          = ((updateAux fuel s c) c).wcache.translation := by
  have e : dissoc fuel s p c
      = changedAux fuel
          (dissoc_commit (updateAux fuel s c) p c ((updateAux fuel s c) c).wcache) c := by
    simp only [dissoc]
    rw [if_pos hmem]
  have h1 : ((dissoc fuel s p c) c).parent = none := by
    rw [e, changedAux_parent, dissoc_commit_at_c _ _ _ _ hpc]
  have h2 : ((dissoc fuel s p c) c).pose.rotation
      = ((updateAux fuel s c) c).wcache.rotation := by
    rw [e, changedAux_pose, dissoc_commit_at_c _ _ _ _ hpc]
    rfl
  have h3 : ((dissoc fuel s p c) c).pose.translation
      = ((updateAux fuel s c) c).wcache.translation := by
    rw [e, changedAux_pose, dissoc_commit_at_c _ _ _ _ hpc]
    rfl
  have h4 : ((dissoc fuel s p c) p).descendants = (s p).descendants.erase c := by
    rw [e, changedAux_descendants, dissoc_commit_at_p _ _ _ _ hpc,
      updateAux_descendants]
  have h5 : ((dissoc fuel s p c) c).changed = true := by
    rw [e]
    exact changedAux_self fuel hf _ c
  have h6 : updateAux 1 (dissoc fuel s p c) c
      = setNode (dissoc fuel s p c) c
          { (dissoc fuel s p c) c with
            wcache := writePose ((dissoc fuel s p c) c).wcache
              ((dissoc fuel s p c) c).pose,
            changed := false } :=
    updateAux_root_dirty 1 _ c h1 h5 (le_refl 1)
  refine ⟨h1, h2, h3, h4, h5, ?_, ?_⟩
  · rw [h6, setNode_same]
    exact h2
  · rw [h6, setNode_same]
    exact h3

/-- Concrete two-node state (root 0 with registered clean child 1, caches in
sync with poses) for the C4 counterexample and witness. -/
def c4state : CCState := fun n =>
  if n = 0 then
    { pose := ⟨1, ![0,0,0], ""⟩, parent := none, descendants := [1],
      changed := false, wcache := ⟨1, ![0,0,0], ""⟩ }
  else
    { pose := ⟨1, ![1,2,3], ""⟩, parent := some 0, descendants := [],
      changed := false, wcache := ⟨1, ![1,2,3], ""⟩ }

/-- C4 counterexample: dissociating the registered child `1` from parent `0`
in the concrete state leaves the child with `_changed = true` (DIRTY), where
the claim demands the CLEAN state (dirty flag false). -/
theorem claim_C4_counterexample :
    1 ∈ (c4state 0).descendants
      ∧ ((dissoc 2 c4state 0 1) 1).changed = true
      ∧ ((dissoc 2 c4state 0 1) 1).parent = none := by
  refine ⟨by decide, by decide, by decide⟩

/-- Witness for the C4 amended theorem at the concrete two-node state. -/
theorem claim_C4_witness :
    ((1:Nat) ≤ 2 ∧ 1 ∈ (c4state 0).descendants ∧ (0:Nat) ≠ 1)
      ∧ ((dissoc 2 c4state 0 1) 1).pose.translation
          = ((updateAux 2 c4state 1) 1).wcache.translation
      ∧ ((dissoc 2 c4state 0 1) 0).descendants = (c4state 0).descendants.erase 1 := by
  refine ⟨⟨by omega, by decide, by omega⟩, ?_, ?_⟩
  · exact (claim_C4_dissoc 2 c4state 0 1 (by omega) (by decide) (by omega)).2.2.1
  · exact (claim_C4_dissoc 2 c4state 0 1 (by omega) (by decide) (by omega)).2.2.2.1

lemma assoc_tail_spec (fuel : Nat) (sC : CCState) (p c : Nat)
    (rel : Coordinates) (hpc : p ≠ c) (hf : 1 ≤ fuel) :
    ((assoc_tail fuel sC p c rel) c).parent = some p
      ∧ ((assoc_tail fuel sC p c rel) c).pose.rotation = rel.rotation
      ∧ ((assoc_tail fuel sC p c rel) c).pose.translation = rel.translation
      ∧ ((assoc_tail fuel sC p c rel) c).changed = true
      ∧ ((assoc_tail fuel sC p c rel) p).parent = (sC p).parent
      ∧ ((assoc_tail fuel sC p c rel) p).pose = (sC p).pose
      ∧ ((assoc_tail fuel sC p c rel) p).wcache = (sC p).wcache
      ∧ c ∈ ((assoc_tail fuel sC p c rel) p).descendants := by
  have ec : (assoc_tail fuel sC p c rel) c
      = (changedAux fuel (assoc_commit sC p c rel) c) c := by
    simp only [assoc_tail]
    rw [setNode_other _ _ _ _ (Ne.symm hpc)]
  refine ⟨?_, ?_, ?_, ?_, ?_, ?_, ?_, ?_⟩
  · rw [ec, changedAux_parent, assoc_commit_at_c]
  · rw [ec, changedAux_pose, assoc_commit_at_c]
    rfl
  · rw [ec, changedAux_pose, assoc_commit_at_c]
    rfl
  · rw [ec]
    exact changedAux_self fuel hf _ c
  · show ((setNode _ p _) p).parent = _
    rw [setNode_same]
    show ((changedAux fuel (assoc_commit sC p c rel) c) p).parent = _
    rw [changedAux_parent, assoc_commit_other _ _ _ _ p hpc]
  · show ((setNode _ p _) p).pose = _
    rw [setNode_same]
    show ((changedAux fuel (assoc_commit sC p c rel) c) p).pose = _
    rw [changedAux_pose, assoc_commit_other _ _ _ _ p hpc]
  · show ((setNode _ p _) p).wcache = _
    rw [setNode_same]
    show ((changedAux fuel (assoc_commit sC p c rel) c) p).wcache = _
    rw [changedAux_wcache, assoc_commit_other _ _ _ _ p hpc]
  · show c ∈ ((setNode _ p _) p).descendants
    rw [setNode_same]
    exact List.mem_append_right _ (List.mem_singleton_self c)

lemma updateAux_child_step (k : Nat) (s : CCState) (c p : Nat)
    (hcch : (s c).changed = true) (hcp : (s c).parent = some p) :
    updateAux (k + 1) s c
      = setNode (updateAux k s p) c
          { (updateAux k s p) c with
            wcache := writePose ((updateAux k s p) c).wcache
              (transform_coords ((updateAux k s p) p).wcache ((updateAux k s p) c).pose),
            changed := false } := by
  simp only [updateAux]
  rw [if_neg (by simp [hcch]), hcp]

lemma Rz90_orth : Rz90 * Rz90.transpose = 1 := by
  ext i j
  fin_cases i <;> fin_cases j <;>
    simp [Rz90, Matrix.mul_apply, Fin.sum_univ_succ, Matrix.transpose_apply,
      Matrix.vecHead, Matrix.vecTail]


/-- Ancestor chain of a node: `parentChain s i l` states that the parent links
from `i` run exactly through the nodes of `l`, ending at a root.  Spec
invariant (1) — the parent graph is acyclic — says every real node has such a
finite chain. -/
def parentChain (s : CCState) : Nat → List Nat → Prop
  | i, [] => (s i).parent = none
  | i, a :: l => (s i).parent = some a ∧ parentChain s a l

/-- World pose of a node along its ancestor chain:
`parent.worldPose() ∘ localTransform`, folded up to the root. -/
def chainPose (s : CCState) : Nat → List Nat → Coordinates
  | i, [] => (s i).pose
  | i, a :: l => transform_coords (chainPose s a l) (s i).pose

/-- Spec invariant (2) for one node: whenever the node is clean, its cached
world pose equals its chain pose. -/
def cacheOK (s : CCState) (i : Nat) (l : List Nat) : Prop :=
  (s i).changed = false →
    (s i).wcache.rotation = (chainPose s i l).rotation
      ∧ (s i).wcache.translation = (chainPose s i l).translation

/-- Spec invariant (2) along a whole ancestor chain. -/
def allCacheOK (s : CCState) : Nat → List Nat → Prop
  | i, [] => cacheOK s i []
  | i, a :: l => cacheOK s i (a :: l) ∧ allCacheOK s a l

lemma parentChain_congr (s₁ s₂ : CCState) :
    ∀ (l : List Nat) (i : Nat),
      (∀ a, a ∈ i :: l → (s₂ a).parent = (s₁ a).parent) →
      parentChain s₁ i l → parentChain s₂ i l := by
  intro l
  induction l with
  | nil =>
    intro i h hc
    show (s₂ i).parent = none
    rw [h i (List.mem_cons_self i [])]
    exact hc
  | cons a l ih =>
    intro i h hc
    refine ⟨?_, ih a (fun b hb => h b (List.mem_cons_of_mem i hb)) hc.2⟩
    show (s₂ i).parent = some a
    rw [h i (List.mem_cons_self i (a :: l))]
    exact hc.1

lemma chainPose_congr (s₁ s₂ : CCState) :
    ∀ (l : List Nat) (i : Nat),
      (∀ a, a ∈ i :: l → (s₂ a).pose = (s₁ a).pose) →
      chainPose s₂ i l = chainPose s₁ i l := by
  intro l
  induction l with
  | nil =>
    intro i h
    show (s₂ i).pose = (s₁ i).pose
    exact h i (List.mem_cons_self i [])
  | cons a l ih =>
    intro i h
    show transform_coords (chainPose s₂ a l) (s₂ i).pose
        = transform_coords (chainPose s₁ a l) (s₁ i).pose
    rw [ih a (fun b hb => h b (List.mem_cons_of_mem i hb)),
      h i (List.mem_cons_self i (a :: l))]

lemma allCacheOK_congr (s₁ s₂ : CCState) :
    ∀ (l : List Nat) (i : Nat),
      (∀ a, a ∈ i :: l →
        (s₂ a).pose = (s₁ a).pose ∧ (s₂ a).wcache = (s₁ a).wcache
          ∧ ((s₂ a).changed = false → (s₁ a).changed = false)) →
      allCacheOK s₁ i l → allCacheOK s₂ i l := by
  intro l
  induction l with
  | nil =>
    intro i h hc
    show cacheOK s₂ i []
    intro hch
    have hh := h i (List.mem_cons_self i [])
    have hc' : cacheOK s₁ i [] := hc
    refine ⟨?_, ?_⟩
    · rw [hh.2.1, chainPose_congr s₁ s₂ [] i (fun a ha => (h a ha).1)]
      exact (hc' (hh.2.2 hch)).1
    · rw [hh.2.1, chainPose_congr s₁ s₂ [] i (fun a ha => (h a ha).1)]
      exact (hc' (hh.2.2 hch)).2
  | cons a l ih =>
    intro i h hc
    refine ⟨?_, ih a (fun b hb => h b (List.mem_cons_of_mem i hb)) hc.2⟩
    intro hch
    have hh := h i (List.mem_cons_self i (a :: l))
    refine ⟨?_, ?_⟩
    · rw [hh.2.1, chainPose_congr s₁ s₂ (a :: l) i (fun b hb => (h b hb).1)]
      exact (hc.1 (hh.2.2 hch)).1
    · rw [hh.2.1, chainPose_congr s₁ s₂ (a :: l) i (fun b hb => (h b hb).1)]
      exact (hc.1 (hh.2.2 hch)).2

lemma parentChain_unique (s : CCState) :
    ∀ (l₁ : List Nat) (i : Nat) (l₂ : List Nat),
      parentChain s i l₁ → parentChain s i l₂ → l₁ = l₂ := by
  intro l₁
  induction l₁ with
  | nil =>
    intro i l₂ h1 h2
    cases l₂ with
    | nil => rfl
    | cons b l₂ =>
      have e1 : (s i).parent = none := h1
      have e2 : (s i).parent = some b := h2.1
      rw [e1] at e2
      simp at e2
  | cons a l₁ ih =>
    intro i l₂ h1 h2
    cases l₂ with
    | nil =>
      have e1 : (s i).parent = some a := h1.1
      have e2 : (s i).parent = none := h2
      rw [e2] at e1
      simp at e1
    | cons b l₂ =>
      have e1 : (s i).parent = some a := h1.1
      have e2 : (s i).parent = some b := h2.1
      rw [e1] at e2
      injection e2 with hab
      subst hab
      rw [ih a l₂ h1.2 h2.2]

lemma parentChain_suffix (s : CCState) :
    ∀ (l : List Nat) (i : Nat), parentChain s i l →
      ∀ j, j ∈ l → ∃ l', parentChain s j l' ∧ l'.length < l.length := by
  intro l
  induction l with
  | nil =>
    intro i _ j hj
    exact absurd hj (List.not_mem_nil j)
  | cons a l ih =>
    intro i h j hj
    rcases List.mem_cons.mp hj with rfl | hj'
    · exact ⟨l, h.2, by simp⟩
    · obtain ⟨l', hl', hlen⟩ := ih a h.2 j hj'
      refine ⟨l', hl', ?_⟩
      simp only [List.length_cons]
      omega

lemma parentChain_not_mem (s : CCState) (l : List Nat) (i : Nat)
    (h : parentChain s i l) : i ∉ l := by
  intro hmem
  obtain ⟨l', hl', hlen⟩ := parentChain_suffix s l i h i hmem
  have he := parentChain_unique s l i l' h hl'
  rw [he] at hlen
  exact absurd hlen (lt_irrefl _)

lemma updateAux_chain_spec :
    ∀ (l : List Nat) (f : Nat) (s : CCState) (i : Nat),
      parentChain s i l → l.length < f → allCacheOK s i l →
      (((updateAux f s i) i).wcache.rotation = (chainPose s i l).rotation
          ∧ ((updateAux f s i) i).wcache.translation = (chainPose s i l).translation
          ∧ ((updateAux f s i) i).changed = false)
        ∧ (∀ j, j ∉ i :: l → (updateAux f s i) j = s j)
        ∧ allCacheOK (updateAux f s i) i l := by
  intro l
  induction l with
  | nil =>
    intro f s i hchain hlen hinv
    have hroot : (s i).parent = none := hchain
    have hinv' : (s i).changed = false →
        (s i).wcache.rotation = (s i).pose.rotation
          ∧ (s i).wcache.translation = (s i).pose.translation := hinv
    have spec := updateAux_root_spec f s i hroot (by omega) hinv'
    refine ⟨⟨spec.1, spec.2.1, spec.2.2.1⟩, ?_, ?_⟩
    · intro j hj
      exact spec.2.2.2.2 j (fun he => hj (he ▸ List.mem_cons_self i []))
    · show cacheOK (updateAux f s i) i []
      intro _
      constructor
      · show ((updateAux f s i) i).wcache.rotation = ((updateAux f s i) i).pose.rotation
        rw [updateAux_pose]
        exact spec.1
      · show ((updateAux f s i) i).wcache.translation
            = ((updateAux f s i) i).pose.translation
        rw [updateAux_pose]
        exact spec.2.1
  | cons a l ih =>
    intro f s i hchain hlen hinv
    have hpa : (s i).parent = some a := hchain.1
    have hnotmem : i ∉ a :: l := parentChain_not_mem s (a :: l) i hchain
    by_cases hc : (s i).changed = false
    · rw [updateAux_clean f s i hc]
      refine ⟨⟨(hinv.1 hc).1, (hinv.1 hc).2, hc⟩, fun j _ => rfl, hinv⟩
    · have hc' : (s i).changed = true := by
        cases h : (s i).changed
        · exact absurd h hc
        · rfl
      obtain ⟨k, rfl⟩ : ∃ k, f = k + 1 := ⟨f - 1, by omega⟩
      have hlk : l.length < k := by
        simp only [List.length_cons] at hlen
        omega
      obtain ⟨⟨har, hat, hac⟩, hunt, hinv2⟩ := ih k s a hchain.2 hlk hinv.2
      have estep := updateAux_child_step k s i a hc' hpa
      have hvrot : ((updateAux (k + 1) s i) i).wcache.rotation
          = (chainPose s i (a :: l)).rotation := by
        rw [estep, setNode_same]
        show ((updateAux k s a) a).wcache.rotation * ((updateAux k s a) i).pose.rotation
          = (chainPose s i (a :: l)).rotation
        rw [har, updateAux_pose]
        rfl
      have hvtr : ((updateAux (k + 1) s i) i).wcache.translation
          = (chainPose s i (a :: l)).translation := by
        rw [estep, setNode_same]
        show ((updateAux k s a) a).wcache.translation
              + ((updateAux k s a) a).wcache.rotation.mulVec
                  ((updateAux k s a) i).pose.translation
            = (chainPose s i (a :: l)).translation
        rw [har, hat, updateAux_pose]
        rfl
      have hvch : ((updateAux (k + 1) s i) i).changed = false := by
        rw [estep, setNode_same]
      have huntouched : ∀ j, j ∉ i :: a :: l → (updateAux (k + 1) s i) j = s j := by
        intro j hj
        have hji : j ≠ i := fun he => hj (he ▸ List.mem_cons_self i (a :: l))
        have hjal : j ∉ a :: l := fun h => hj (List.mem_cons_of_mem i h)
        rw [estep, setNode_other _ _ _ _ hji]
        exact hunt j hjal
      have heq : ∀ b, b ∈ a :: l → (updateAux (k + 1) s i) b = (updateAux k s a) b := by
        intro b hb
        have hbi : b ≠ i := fun he => hnotmem (he ▸ hb)
        rw [estep]
        exact setNode_other _ _ _ _ hbi
      refine ⟨⟨hvrot, hvtr, hvch⟩, huntouched, ?_, ?_⟩
      · intro hch
        have hp : ∀ b, b ∈ i :: a :: l →
            ((updateAux (k + 1) s i) b).pose = (s b).pose :=
          fun b _ => updateAux_pose _ _ _ _
        rw [chainPose_congr s (updateAux (k + 1) s i) (a :: l) i hp]
        exact ⟨hvrot, hvtr⟩
      · exact allCacheOK_congr (updateAux k s a) (updateAux (k + 1) s i) l a
          (fun b hb => by
            have he := heq b hb
            exact ⟨congrArg Node.pose he, congrArg Node.wcache he,
              fun h => by rw [← he]; exact h⟩)
          hinv2

lemma changedAux_flag_false (f : Nat) (s : CCState) (i j : Nat)
    (h : ((changedAux f s i) j).changed = false) : (s j).changed = false := by
  cases hc : (s j).changed
  · rfl
  · have ht := changedAux_mono f s i j hc
    rw [ht] at h
    exact absurd h (by simp)

lemma assoc_tail_preserves (fuel : Nat) (sC : CCState) (p c : Nat)
    (rel : Coordinates) (j : Nat) (hj : j ≠ c) :
    ((assoc_tail fuel sC p c rel) j).pose = (sC j).pose
      ∧ ((assoc_tail fuel sC p c rel) j).parent = (sC j).parent
      ∧ ((assoc_tail fuel sC p c rel) j).wcache = (sC j).wcache
      ∧ (((assoc_tail fuel sC p c rel) j).changed = false
          → (sC j).changed = false) := by
  have hcommit : (assoc_commit sC p c rel) j = sC j :=
    assoc_commit_other _ _ _ _ j hj
  by_cases hjp : j = p
  · subst hjp
    refine ⟨?_, ?_, ?_, ?_⟩
    · show ((setNode _ j _) j).pose = _
      rw [setNode_same]
      show ((changedAux fuel (assoc_commit sC j c rel) c) j).pose = _
      rw [changedAux_pose, hcommit]
    · show ((setNode _ j _) j).parent = _
      rw [setNode_same]
      show ((changedAux fuel (assoc_commit sC j c rel) c) j).parent = _
      rw [changedAux_parent, hcommit]
    · show ((setNode _ j _) j).wcache = _
      rw [setNode_same]
      show ((changedAux fuel (assoc_commit sC j c rel) c) j).wcache = _
      rw [changedAux_wcache, hcommit]
    · intro h
      cases hc : (sC j).changed
      · rfl
      · exfalso
        have hmono : ((assoc_tail fuel sC j c rel) j).changed = true := by
          show ((setNode _ j _) j).changed = true
          rw [setNode_same]
          show ((changedAux fuel (assoc_commit sC j c rel) c) j).changed = true
          exact changedAux_mono fuel _ c j (by rw [hcommit]; exact hc)
        rw [hmono] at h
        exact absurd h (by simp)
  · refine ⟨?_, ?_, ?_, ?_⟩
    · show ((setNode _ p _) j).pose = _
      rw [setNode_other _ _ _ _ hjp]
      show ((changedAux fuel (assoc_commit sC p c rel) c) j).pose = _
      rw [changedAux_pose, hcommit]
    · show ((setNode _ p _) j).parent = _
      rw [setNode_other _ _ _ _ hjp]
      show ((changedAux fuel (assoc_commit sC p c rel) c) j).parent = _
      rw [changedAux_parent, hcommit]
    · show ((setNode _ p _) j).wcache = _
      rw [setNode_other _ _ _ _ hjp]
      show ((changedAux fuel (assoc_commit sC p c rel) c) j).wcache = _
      rw [changedAux_wcache, hcommit]
    · intro h
      cases hc : (sC j).changed
      · rfl
      · exfalso
        have hmono : ((assoc_tail fuel sC p c rel) j).changed = true := by
          show ((setNode _ p _) j).changed = true
          rw [setNode_other _ _ _ _ hjp]
          show ((changedAux fuel (assoc_commit sC p c rel) c) j).changed = true
          exact changedAux_mono fuel _ c j (by rw [hcommit]; exact hc)
        rw [hmono] at h
        exact absurd h (by simp)

/-- C5: associating a parentless child under a parent at ANY depth of the
frame tree (ancestor chain `l`, spec invariant (1) guarantees such a finite
chain exists) with `relative_coords=world` and immediately dissociating it
leaves the world rotation and world position of the child unchanged (exactly,
over exact scalars — a fortiori within 1e-9).  The hypotheses are the guards
of `assoc` (distinct objects, child not yet parented or registered), the
acyclicity of the resulting tree (the child is not an ancestor of the
parent), orthonormality of the world rotation of the parent, and the
cache-coherence invariant (2) of the spec along the ancestor chain and for
the child. -/
theorem claim_C5_roundtrip (fuel : Nat) (s : CCState) (p c : Nat) (l : List Nat)
    (hchain : parentChain s p l)
    (hpc : p ≠ c)
    (hcroot : (s c).parent = none)
    (hmem : c ∉ (s p).descendants)
    (hcl : c ∉ p :: l)
    (hf : l.length + 2 ≤ fuel)
    (horth : (chainPose s p l).rotation * (chainPose s p l).rotation.transpose = 1)
    (hinv : allCacheOK s p l)
    (hcinv : (s c).changed = false →
      (s c).wcache.rotation = (s c).pose.rotation
        ∧ (s c).wcache.translation = (s c).pose.translation) :
    assoc_world fuel s p c = some (assoc_world_main fuel s p c)
      ∧ ((updateAux fuel s c) c).wcache.rotation = (s c).pose.rotation
      ∧ ((updateAux fuel s c) c).wcache.translation = (s c).pose.translation
      ∧ ((dissoc fuel (assoc_world_main fuel s p c) p c) c).pose.rotation
          = (s c).pose.rotation
      ∧ ((dissoc fuel (assoc_world_main fuel s p c) p c) c).pose.translation
          = (s c).pose.translation
      ∧ ((dissoc fuel (assoc_world_main fuel s p c) p c) c).parent = none
      ∧ ((updateAux 1 (dissoc fuel (assoc_world_main fuel s p c) p c) c) c).wcache.rotation
          = (s c).pose.rotation
      ∧ ((updateAux 1 (dissoc fuel (assoc_world_main fuel s p c) p c) c) c).wcache.translation
          = (s c).pose.translation := by
  obtain ⟨k, rfl⟩ : ∃ k, fuel = k + 1 := ⟨fuel - 1, by omega⟩
  have hf1 : 1 ≤ k + 1 := by omega
  have hguard : assoc_world (k + 1) s p c = some (assoc_world_main (k + 1) s p c) := by
    simp only [assoc_world]
    rw [if_neg hpc, if_neg (by simp [hcroot]), if_neg hmem]
  have hbefore := updateAux_root_spec (k + 1) s c hcroot hf1 hcinv
  have spec1 := updateAux_chain_spec l (k + 1) s p hchain (by omega) hinv
  have hsPc : (updateAux (k + 1) s p) c = s c := spec1.2.1 c hcl
  have hC := updateAux_root_spec (k + 1) (updateAux (k + 1) s p) c
    (by rw [hsPc]; exact hcroot) hf1 (by rw [hsPc]; exact hcinv)
  have hCp : (updateAux (k + 1) (updateAux (k + 1) s p) c) p
      = (updateAux (k + 1) s p) p :=
    hC.2.2.2.2 p hpc
  have hCc_rot : ((updateAux (k + 1) (updateAux (k + 1) s p) c) c).wcache.rotation
      = (s c).pose.rotation := by
    rw [hC.1, hsPc]
  have hCc_tr : ((updateAux (k + 1) (updateAux (k + 1) s p) c) c).wcache.translation
      = (s c).pose.translation := by
    rw [hC.2.1, hsPc]
  have eMain : assoc_world_main (k + 1) s p c
      = assoc_tail (k + 1) (updateAux (k + 1) (updateAux (k + 1) s p) c) p c
          (transform_coords
            (inverse_transformation
              ((updateAux (k + 1) (updateAux (k + 1) s p) c) p).wcache)
            ((updateAux (k + 1) (updateAux (k + 1) s p) c) c).wcache) := rfl
  have hT := assoc_tail_spec (k + 1) (updateAux (k + 1) (updateAux (k + 1) s p) c) p c
    (transform_coords
      (inverse_transformation
        ((updateAux (k + 1) (updateAux (k + 1) s p) c) p).wcache)
      ((updateAux (k + 1) (updateAux (k + 1) s p) c) c).wcache) hpc hf1
  have hTc_parent : ((assoc_world_main (k + 1) s p c) c).parent = some p := by
    rw [eMain]
    exact hT.1
  have hTc_changed : ((assoc_world_main (k + 1) s p c) c).changed = true := by
    rw [eMain]
    exact hT.2.2.2.1
  have hTc_rot : ((assoc_world_main (k + 1) s p c) c).pose.rotation
      = (chainPose s p l).rotation.transpose * (s c).pose.rotation := by
    rw [eMain, hT.2.1]
    show ((updateAux (k + 1) (updateAux (k + 1) s p) c) p).wcache.rotation.transpose
        * ((updateAux (k + 1) (updateAux (k + 1) s p) c) c).wcache.rotation = _
    rw [hCp, spec1.1.1, hCc_rot]
  have hTc_tr : ((assoc_world_main (k + 1) s p c) c).pose.translation
      = -((chainPose s p l).rotation.transpose.mulVec (chainPose s p l).translation)
          + (chainPose s p l).rotation.transpose.mulVec (s c).pose.translation := by
    rw [eMain, hT.2.2.1]
    show -(((updateAux (k + 1) (updateAux (k + 1) s p) c) p).wcache.rotation.transpose.mulVec
            ((updateAux (k + 1) (updateAux (k + 1) s p) c) p).wcache.translation)
        + ((updateAux (k + 1) (updateAux (k + 1) s p) c) p).wcache.rotation.transpose.mulVec
            ((updateAux (k + 1) (updateAux (k + 1) s p) c) c).wcache.translation = _
    rw [hCp, spec1.1.1, spec1.1.2.1, hCc_tr]
  have hTmem : c ∈ ((assoc_world_main (k + 1) s p c) p).descendants := by
    rw [eMain]
    exact hT.2.2.2.2.2.2.2
  have hTparents : ∀ b, b ∈ p :: l →
      ((assoc_world_main (k + 1) s p c) b).parent = (s b).parent := by
    intro b hb
    have hbc : b ≠ c := fun he => hcl (he ▸ hb)
    rw [eMain,
      (assoc_tail_preserves (k + 1) (updateAux (k + 1) (updateAux (k + 1) s p) c) p c
        (transform_coords
          (inverse_transformation
            ((updateAux (k + 1) (updateAux (k + 1) s p) c) p).wcache)
          ((updateAux (k + 1) (updateAux (k + 1) s p) c) c).wcache) b hbc).2.1,
      updateAux_parent, updateAux_parent]
  have hTposes : ∀ b, b ∈ p :: l →
      ((assoc_world_main (k + 1) s p c) b).pose = (s b).pose := by
    intro b hb
    have hbc : b ≠ c := fun he => hcl (he ▸ hb)
    rw [eMain,
      (assoc_tail_preserves (k + 1) (updateAux (k + 1) (updateAux (k + 1) s p) c) p c
        (transform_coords
          (inverse_transformation
            ((updateAux (k + 1) (updateAux (k + 1) s p) c) p).wcache)
          ((updateAux (k + 1) (updateAux (k + 1) s p) c) c).wcache) b hbc).1,
      updateAux_pose, updateAux_pose]
  have hchainT : parentChain (assoc_world_main (k + 1) s p c) p l :=
    parentChain_congr s (assoc_world_main (k + 1) s p c) l p hTparents hchain
  have hposeEq : chainPose (assoc_world_main (k + 1) s p c) p l = chainPose s p l :=
    chainPose_congr s (assoc_world_main (k + 1) s p c) l p hTposes
  have hinvC : allCacheOK (updateAux (k + 1) (updateAux (k + 1) s p) c) p l :=
    allCacheOK_congr (updateAux (k + 1) s p)
      (updateAux (k + 1) (updateAux (k + 1) s p) c) l p
      (fun b hb => by
        have hbc : b ≠ c := fun he => hcl (he ▸ hb)
        have he := hC.2.2.2.2 b hbc
        exact ⟨congrArg Node.pose he, congrArg Node.wcache he,
          fun h => by rw [← he]; exact h⟩)
      spec1.2.2
  have hinvT : allCacheOK (assoc_world_main (k + 1) s p c) p l := by
    rw [eMain]
    exact allCacheOK_congr (updateAux (k + 1) (updateAux (k + 1) s p) c)
      (assoc_tail (k + 1) (updateAux (k + 1) (updateAux (k + 1) s p) c) p c
        (transform_coords
          (inverse_transformation
            ((updateAux (k + 1) (updateAux (k + 1) s p) c) p).wcache)
          ((updateAux (k + 1) (updateAux (k + 1) s p) c) c).wcache)) l p
      (fun b hb => by
        have hbc : b ≠ c := fun he => hcl (he ▸ hb)
        have hp := assoc_tail_preserves (k + 1)
          (updateAux (k + 1) (updateAux (k + 1) s p) c) p c
          (transform_coords
            (inverse_transformation
              ((updateAux (k + 1) (updateAux (k + 1) s p) c) p).wcache)
            ((updateAux (k + 1) (updateAux (k + 1) s p) c) c).wcache) b hbc
        exact ⟨hp.1, hp.2.2.1, hp.2.2.2⟩)
      hinvC
  have hlk : l.length < k := by omega
  have specT := updateAux_chain_spec l k (assoc_world_main (k + 1) s p c) p
    hchainT hlk hinvT
  have estep := updateAux_child_step k (assoc_world_main (k + 1) s p c) c p
    hTc_changed hTc_parent
  have hsnap_rot : ((updateAux (k + 1) (assoc_world_main (k + 1) s p c) c) c).wcache.rotation
      = (s c).pose.rotation := by
    rw [estep, setNode_same]
    show ((updateAux k (assoc_world_main (k + 1) s p c) p) p).wcache.rotation
        * ((updateAux k (assoc_world_main (k + 1) s p c) p) c).pose.rotation
      = (s c).pose.rotation
    rw [specT.1.1, hposeEq, updateAux_pose, hTc_rot, ← Matrix.mul_assoc, horth, one_mul]
  have hsnap_tr : ((updateAux (k + 1) (assoc_world_main (k + 1) s p c) c) c).wcache.translation
      = (s c).pose.translation := by
    rw [estep, setNode_same]
    show ((updateAux k (assoc_world_main (k + 1) s p c) p) p).wcache.translation
        + ((updateAux k (assoc_world_main (k + 1) s p c) p) p).wcache.rotation.mulVec
            ((updateAux k (assoc_world_main (k + 1) s p c) p) c).pose.translation
      = (s c).pose.translation
    rw [specT.1.2.1, specT.1.1, hposeEq, updateAux_pose, hTc_tr,
      Matrix.mulVec_add, Matrix.mulVec_neg, Matrix.mulVec_mulVec, Matrix.mulVec_mulVec,
      horth, Matrix.one_mulVec, Matrix.one_mulVec]
    exact add_neg_cancel_left _ _
  have e2 : dissoc (k + 1) (assoc_world_main (k + 1) s p c) p c
      = changedAux (k + 1)
          (dissoc_commit (updateAux (k + 1) (assoc_world_main (k + 1) s p c) c) p c
            ((updateAux (k + 1) (assoc_world_main (k + 1) s p c) c) c).wcache) c := by
    simp only [dissoc]
    rw [if_pos hTmem]
  have hD_rot : ((dissoc (k + 1) (assoc_world_main (k + 1) s p c) p c) c).pose.rotation
      = (s c).pose.rotation := by
    rw [e2, changedAux_pose, dissoc_commit_at_c _ _ _ _ hpc]
    exact hsnap_rot
  have hD_tr : ((dissoc (k + 1) (assoc_world_main (k + 1) s p c) p c) c).pose.translation
      = (s c).pose.translation := by
    rw [e2, changedAux_pose, dissoc_commit_at_c _ _ _ _ hpc]
    exact hsnap_tr
  have hD_parent : ((dissoc (k + 1) (assoc_world_main (k + 1) s p c) p c) c).parent
      = none := by
    rw [e2, changedAux_parent, dissoc_commit_at_c _ _ _ _ hpc]
  have hD_changed : ((dissoc (k + 1) (assoc_world_main (k + 1) s p c) p c) c).changed
      = true := by
    rw [e2]
    exact changedAux_self (k + 1) hf1 _ c
  have h6 := updateAux_root_dirty 1 (dissoc (k + 1) (assoc_world_main (k + 1) s p c) p c) c
    hD_parent hD_changed (le_refl 1)
  refine ⟨hguard, hbefore.1, hbefore.2.1, hD_rot, hD_tr, hD_parent, ?_, ?_⟩
  · rw [h6, setNode_same]
    exact hD_rot
  · rw [h6, setNode_same]
    exact hD_tr

/-- Concrete state for the C5 witness with a NESTED parent: node 2 is a root
(identity rotation, translation `[5,0,0]`, cache valid), node 0 is its dirty
child (rotation `Rz90`, stale cache) and node 1 is a clean parentless node
(rotation `Rx90`, cache valid). -/
def c5state : CCState := fun n =>
  if n = 0 then
    { pose := ⟨Rz90, ![1,0,0], ""⟩, parent := some 2, descendants := [],
      changed := true, wcache := ⟨1, ![0,0,0], ""⟩ }
  else if n = 1 then
    { pose := ⟨Rx90, ![0,1,0], ""⟩, parent := none, descendants := [],
      changed := false, wcache := ⟨Rx90, ![0,1,0], ""⟩ }
  else
    { pose := ⟨1, ![5,0,0], ""⟩, parent := none, descendants := [0],
      changed := false, wcache := ⟨1, ![5,0,0], ""⟩ }

/-- Witness for C5 at the concrete three-node state: after assoc under the
nested parent 0 (itself a child of root 2) then dissoc, the next
world-rotation read of node 1 returns its original rotation. -/
theorem claim_C5_witness :
    (parentChain c5state 0 [2] ∧ (0:Nat) ≠ 1 ∧ (c5state 1).parent = none
        ∧ 1 ∉ (c5state 0).descendants ∧ (1:Nat) ∉ 0 :: [2]
        ∧ ([2] : List Nat).length + 2 ≤ 3
        ∧ (chainPose c5state 0 [2]).rotation
            * (chainPose c5state 0 [2]).rotation.transpose = 1
        ∧ allCacheOK c5state 0 [2])
      ∧ ((updateAux 1 (dissoc 3 (assoc_world_main 3 c5state 0 1) 0 1) 1) 1).wcache.rotation
          = (c5state 1).pose.rotation
      ∧ ((updateAux 1 (dissoc 3 (assoc_world_main 3 c5state 0 1) 0 1) 1) 1).wcache.translation
          = (c5state 1).pose.translation := by
  have hchain : parentChain c5state 0 [2] := ⟨rfl, rfl⟩
  have hr : (chainPose c5state 0 [2]).rotation = Rz90 := by
    show (1 : Mat3) * Rz90 = Rz90
    rw [one_mul]
  have horth : (chainPose c5state 0 [2]).rotation
      * (chainPose c5state 0 [2]).rotation.transpose = 1 := by
    rw [hr]
    exact Rz90_orth
  have hinv : allCacheOK c5state 0 [2] :=
    ⟨fun h => absurd h (by decide), fun _ => ⟨rfl, rfl⟩⟩
  have main := claim_C5_roundtrip 3 c5state 0 1 [2] hchain (by omega) rfl
    (by decide) (by decide) (by decide) horth hinv (fun _ => ⟨rfl, rfl⟩)
  exact ⟨⟨hchain, by omega, rfl, by decide, by decide, by decide, horth, hinv⟩,
    main.2.2.2.2.2.2.1, main.2.2.2.2.2.2.2⟩
